import Mathlib

/-!
# Purchase advertisements: the proposal negotiation step

A shallow embedding of `src/class/advertisement/purchase/purchase.cpp`
(`Purchase::getType`, `Purchase::viewProposals`, `Purchase::addProposal`) and of
the data members declared in `src/class/advertisement/advertisement.h`.

* `cin` is the list of the integer tokens waiting on the input, in order; a token
  may lie outside the range of the 32-bit `int` that `cin >> input` extracts
  into. `cout` is the list of tokens written by the `<<` chains.
* `Purchase::viewProposals` is defined `void` in purchase.cpp: the outcome of a
  call carries a transaction slot which the body never fills.
* The headers `purchase.h`, `proposal.h`, `user.h`, `transaction.h`, `date.h`
  and `enums.h` are not among the sources; what the code needs from them is
  modelled from the specification and marked as such.
-/

namespace Marketplace

/-! ## Collaborators -/

/-- Modelled from the spec: class `User` (user.h is missing). The negotiation
step only calls `getName()` on a user. -/
structure User where
  name : String
deriving DecidableEq, Repr

/-- Modelled from the spec: class `Proposal` (proposal.h is missing), "an offered
price plus a reference to the offering user", any numeric price, negative ones
included. Prices are integers here; the floating point representation is not
modelled. -/
structure Proposal where
  price : Int
  owner : User
deriving DecidableEq, Repr

/-- Modelled from the spec: class `Transaction` (transaction.h is missing), "enough
information to identify the advertisement, the accepted price, and both
parties". -/
structure Transaction where
  adId : Nat
  price : Int
  adOwner : User
  proposer : User
deriving DecidableEq, Repr

/-- Modelled from the spec: the `Category` enumeration (enums.h is missing), a closed
set of categories, numbered. -/
abbrev Category := Nat

/-- Modelled from the spec: class `Date` (date.h is missing), a value object; a day
number here. -/
abbrev Date := Nat

/-- The data members of `class Advertisement` (advertisement.h, lines 39-50).
`price` is a `float` in the source and an integer here. -/
structure Advertisement where
  views : Nat
  id : Nat
  title : String
  category : Category
  description : String
  creationDate : Date
  owner : User
  price : Int
  negotiable : Bool
  featured : Bool
  highlightEndDate : Date
deriving DecidableEq, Repr

/-! ## The pending-proposal collection -/

/-- Modelled from the spec: an element of the priority structure, a proposal with
its insertion sequence number ("keyed by (price descending, insertion sequence
ascending)"). -/
structure Entry where
  seq : Nat
  proposal : Proposal
deriving DecidableEq, Repr

/-- Modelled from the spec: the key order of the priority structure, "price
descending, insertion sequence ascending": `a` is served before `b`. -/
def Entry.before (a b : Entry) : Bool :=
  decide (b.proposal.price < a.proposal.price) ||
    (decide (a.proposal.price = b.proposal.price) && decide (a.seq < b.seq))

/-- Modelled from the spec: the member `Purchase::proposals` (declared in purchase.h,
which is missing, together with its comparator): "a priority structure keyed by
price, ties broken by insertion order (earliest first)". The entries are kept
in serving order, best first; `nextSeq` is the next insertion sequence number. -/
structure ProposalQueue where
  entries : List Entry
  nextSeq : Nat
deriving DecidableEq, Repr

namespace ProposalQueue

/-- Modelled from the spec: a default-constructed collection holds no proposal. -/
def new : ProposalQueue :=
  { entries := [], nextSeq := 0 }

/-- Modelled from the spec: `proposals.empty()`. -/
def empty (q : ProposalQueue) : Bool :=
  q.entries.isEmpty

/-- Modelled from the spec: `proposals.size()`. -/
def size (q : ProposalQueue) : Nat :=
  q.entries.length

/-- Modelled from the spec: `proposals.top()`, the best pending proposal; `none`
stands for the call on an empty collection, which the source never makes. -/
def top (q : ProposalQueue) : Option Proposal :=
  q.entries.head?.map Entry.proposal

/-- Modelled from the spec: placing a new entry at its position in serving order. -/
def insertEntry (x : Entry) : List Entry → List Entry
  | [] => [x]
  | y :: ys => if Entry.before x y then x :: y :: ys else y :: insertEntry x ys

/-- Modelled from the spec: `proposals.push(p)`; the new entry takes the next
insertion sequence number. -/
def push (q : ProposalQueue) (p : Proposal) : ProposalQueue :=
  { entries := insertEntry { seq := q.nextSeq, proposal := p } q.entries,
    nextSeq := q.nextSeq + 1 }

/-- Modelled from the spec: `proposals.pop()`, removing the best pending proposal. -/
def pop (q : ProposalQueue) : ProposalQueue :=
  { entries := q.entries.tail, nextSeq := q.nextSeq }

/-- The pending proposals, best first. -/
def toList (q : ProposalQueue) : List Proposal :=
  q.entries.map Entry.proposal

/-- The entries are in serving order and carry sequence numbers already handed
out. -/
def Ordered (q : ProposalQueue) : Prop :=
  q.entries.Pairwise (fun a b => Entry.before a b = true) ∧ ∀ e ∈ q.entries, e.seq < q.nextSeq

end ProposalQueue

/-! ## Purchase -/

/-- A `Purchase` object: the `Advertisement` base subobject and the pending
proposals. -/
structure Purchase where
  ad : Advertisement
  proposals : ProposalQueue
deriving DecidableEq, Repr

/-- A token written to `cout`. -/
inductive Out where
  | str (s : String)
  | num (x : Int)
  | endl
deriving DecidableEq, Repr

/-- What one call of `viewProposals` leaves behind: the object, the unread
input, the text written, and the transaction handed back to the caller. -/
structure ViewResult where
  purchase : Purchase
  cin : List Int
  cout : List Out
  transaction : Option Transaction
deriving DecidableEq, Repr

namespace Purchase

/-- The constructor `Purchase::Purchase` (purchase.cpp, lines 6-7): it forwards its
arguments to the `Advertisement` constructor, whose result is the parameter
`ad`, and default-constructs `proposals`. -/
def new (ad : Advertisement) : Purchase :=
  { ad := ad, proposals := ProposalQueue.new }

/-- The function `Purchase::getType` (purchase.cpp, lines 11-13). -/
def getType (_s : Purchase) : Char :=
  'P'

/-- The function `Purchase::addProposal` (purchase.cpp, lines 54-56). -/
def addProposal (s : Purchase) (p : Proposal) : Purchase :=
  { s with proposals := s.proposals.push p }

/-- The header lines of the menu (purchase.cpp, lines 24-28). -/
def menu (t : Proposal) : List Out :=
  [Out.str "Price offered: ", Out.num t.price, Out.endl,
   Out.str "Offer from: ", Out.str t.owner.name, Out.endl,
   Out.str "1 - Accept\n", Out.str "2 - Refuse\n", Out.str "3 - Back\n"]

/-- The line written at the start of every round of the input loop. -/
def promptLine : Out :=
  Out.str "Please select a valid option\n"

/-- The smallest value of the 32-bit `int input`. -/
def intMin : Int :=
  -2147483648

/-- The largest value of the 32-bit `int input`. -/
def intMax : Int :=
  2147483647

/-- The loop `do ... while(input < 0 || input > 3)` (purchase.cpp, lines 31-34):
each round writes the prompt and extracts one token into `int input`. The
result is the value that ended the loop, the unread input and the prompts
written. `none` stands for a loop that hands no value on:

* a token outside the `int` range makes the extraction fail; the stream stays
  failed, since the loop never clears it, `input` holds a rejected value in every
  later round and the loop never ends;
* at the end of the input the extraction fails too: `input` keeps the rejected
  value of the round before, and the loop never ends, or was never written, and
  the guard reads an uninitialised variable. -/
def readChoice : List Int → Option (Int × List Int × List Out)
  | [] => none
  | token :: rest =>
    if token < intMin ∨ token > intMax then none
    else if token < 0 ∨ token > 3 then
      match readChoice rest with
      | none => none
      | some (c, rest', prompts) => some (c, rest', promptLine :: prompts)
    else some (token, rest, [promptLine])

/-- The function `Purchase::viewProposals` (purchase.cpp, lines 17-52). `none` stands
for a call that yields no result: its input loop hands no value on. -/
def viewProposals (s : Purchase) (cin : List Int) : Option ViewResult :=
  if s.proposals.empty then
    some { purchase := s, cin := cin,
           cout := [Out.str "You have not received any proposals."],
           transaction := none }
  else
    match s.proposals.top with
    | none => none
    | some t =>
      match readChoice cin with
      | none => none
      | some (input, rest, prompts) =>
        match input with
        | 1 =>
          some { purchase := s, cin := rest, cout := menu t ++ prompts,
                 transaction := none }
        | 2 =>
          some { purchase := { s with proposals := s.proposals.pop }, cin := rest,
                 cout := menu t ++ prompts, transaction := none }
        | 3 =>
          some { purchase := s, cin := rest, cout := menu t ++ prompts,
                 transaction := none }
        | _ =>
          some { purchase := s, cin := rest, cout := menu t ++ prompts,
                 transaction := none }

/-- A caller making `n` successive `viewProposals` calls on one object, all reading
from the same input. -/
def viewProposalsTimes : Nat → Purchase → List Int → Option (Purchase × List Int)
  | 0, s, cin => some (s, cin)
  | n + 1, s, cin =>
    match viewProposals s cin with
    | none => none
    | some r => viewProposalsTimes n r.purchase r.cin

end Purchase

/-- A call made on a `Purchase` object by its user: `addProposal(p)`, or
`viewProposals()` together with the input available to it. -/
inductive Call where
  | addProposal (p : Proposal)
  | viewProposals (cin : List Int)
deriving DecidableEq, Repr

namespace Purchase

/-- The object after one call; `none` when the call yields no result. -/
def call (s : Purchase) : Call → Option Purchase
  | Call.addProposal p => some (s.addProposal p)
  | Call.viewProposals cin => (s.viewProposals cin).map ViewResult.purchase

/-- The object after a sequence of calls, made in order. -/
def calls (s : Purchase) : List Call → Option Purchase
  | [] => some s
  | c :: cs =>
    match s.call c with
    | none => none
    | some s' => calls s' cs

end Purchase

/-! ## Sample objects -/

/-- A sample advertisement: price 100. -/
def sampleAd : Advertisement :=
  { views := 0, id := 1, title := "bicycle", category := 0, description := "wanted",
    creationDate := 0, owner := { name := "owner" }, price := 100,
    negotiable := true, featured := false, highlightEndDate := 0 }

/-- User A bids 80. -/
def bidA : Proposal := { price := 80, owner := { name := "A" } }

/-- User B bids 120. -/
def bidB : Proposal := { price := 120, owner := { name := "B" } }

/-- User C bids 120. -/
def bidC : Proposal := { price := 120, owner := { name := "C" } }

/-- The sample purchase after `addProposal` of A:80, B:120 and C:120, in this order. -/
def samplePurchase : Purchase :=
  (((Purchase.new sampleAd).addProposal bidA).addProposal bidB).addProposal bidC

/-- A second bid of user B, again 120. -/
def bidB2 : Proposal := { price := 120, owner := { name := "B" } }

/-- A sample history: A bids 80, B bids 120, the owner refuses the best bid (after
one rejected input), then C bids 120 and B bids 120 once more. -/
def sampleCalls : List Call :=
  [Call.addProposal bidA, Call.addProposal bidB, Call.viewProposals [5, 2],
   Call.addProposal bidC, Call.addProposal bidB2]

/-! ## The input loop -/

theorem readChoice_skips_rejected (junk : List Int) (c : Int) (rest : List Int)
    (hint : ∀ x ∈ junk, Purchase.intMin ≤ x ∧ x ≤ Purchase.intMax)
    (hjunk : ∀ x ∈ junk, x < 0 ∨ 3 < x) (h0 : 0 ≤ c) (h3 : c ≤ 3) :
    Purchase.readChoice (junk ++ c :: rest) =
      some (c, rest, List.replicate (junk.length + 1) Purchase.promptLine) := by
  induction junk with
  | nil =>
    have hr : ¬ (c < Purchase.intMin ∨ c > Purchase.intMax) := by
      simp only [Purchase.intMin, Purchase.intMax]
      omega
    have hc : ¬ (c < 0 ∨ c > 3) := by omega
    simp [Purchase.readChoice, hr, hc]
  | cons x xs ih =>
    have hr : ¬ (x < Purchase.intMin ∨ x > Purchase.intMax) := by
      have := hint x (List.mem_cons_self x xs)
      omega
    have hx : x < 0 ∨ x > 3 := by
      have := hjunk x (List.mem_cons_self x xs)
      omega
    have hxs : ∀ y ∈ xs, y < 0 ∨ 3 < y := fun y hy => hjunk y (List.mem_cons_of_mem x hy)
    have hixs : ∀ y ∈ xs, Purchase.intMin ≤ y ∧ y ≤ Purchase.intMax :=
      fun y hy => hint y (List.mem_cons_of_mem x hy)
    simp [Purchase.readChoice, hr, hx, ih hixs hxs, List.replicate_succ]

/-! ## The collection -/

theorem ProposalQueue.top_of_not_empty (q : ProposalQueue) (hne : q.empty = false) :
    ∃ t, q.top = some t ∧ q.toList = t :: q.pop.toList ∧ q.size = q.pop.size + 1 := by
  obtain ⟨entries, nextSeq⟩ := q
  cases entries with
  | nil => simp [ProposalQueue.empty] at hne
  | cons e es =>
    exact ⟨e.proposal, by simp [ProposalQueue.top], by simp [ProposalQueue.toList, ProposalQueue.pop],
      by simp [ProposalQueue.size, ProposalQueue.pop]⟩

theorem ProposalQueue.insertEntry_perm (x : Entry) (l : List Entry) :
    (ProposalQueue.insertEntry x l).Perm (x :: l) := by
  induction l with
  | nil => simp [ProposalQueue.insertEntry]
  | cons y ys ih =>
    unfold ProposalQueue.insertEntry
    split
    · exact List.Perm.refl _
    · exact (List.Perm.cons y ih).trans (List.Perm.swap x y ys)

/-! ## One call of `viewProposals` -/

theorem Purchase.viewProposals_of_empty (s : Purchase) (cin : List Int)
    (hempty : s.proposals.empty = true) :
    s.viewProposals cin =
      some { purchase := s, cin := cin,
             cout := [Out.str "You have not received any proposals."],
             transaction := none } := by
  simp [Purchase.viewProposals, hempty]

theorem Purchase.viewProposals_of_choice (s : Purchase) (t : Proposal) (cin rest : List Int)
    (c : Int) (prompts : List Out) (hne : s.proposals.empty = false)
    (htop : s.proposals.top = some t)
    (hread : Purchase.readChoice cin = some (c, rest, prompts)) :
    s.viewProposals cin =
      some { purchase := if c = 2 then { s with proposals := s.proposals.pop } else s,
             cin := rest, cout := Purchase.menu t ++ prompts, transaction := none } := by
  unfold Purchase.viewProposals
  simp only [hne, htop, hread, Bool.false_eq_true, if_false]
  by_cases h2 : c = 2
  · subst h2
    simp
  · rw [if_neg h2]
    split <;> first | rfl | exact absurd rfl h2

/-! ## Serving order is kept by every call -/

theorem Entry.before_iff (a b : Entry) :
    Entry.before a b = true ↔
      b.proposal.price < a.proposal.price ∨
        (a.proposal.price = b.proposal.price ∧ a.seq < b.seq) := by
  simp [Entry.before]

theorem ProposalQueue.insertEntry_pairwise (x : Entry) (l : List Entry)
    (hl : l.Pairwise (fun a b => Entry.before a b = true))
    (hseq : ∀ e ∈ l, e.seq < x.seq) :
    (ProposalQueue.insertEntry x l).Pairwise (fun a b => Entry.before a b = true) := by
  induction l with
  | nil => simp [ProposalQueue.insertEntry]
  | cons y ys ih =>
    obtain ⟨hy, hys⟩ := List.pairwise_cons.mp hl
    unfold ProposalQueue.insertEntry
    split
    · rename_i hxy
      refine List.pairwise_cons.mpr ⟨?_, hl⟩
      intro e he
      rcases List.mem_cons.mp he with rfl | he
      · exact hxy
      · have h1 := (Entry.before_iff x y).mp hxy
        have h2 := (Entry.before_iff y e).mp (hy e he)
        apply (Entry.before_iff x e).mpr
        omega
    · rename_i hxy
      refine List.pairwise_cons.mpr ⟨?_, ih hys (fun e he => hseq e (List.mem_cons_of_mem y he))⟩
      intro e he
      rcases List.mem_cons.mp ((ProposalQueue.insertEntry_perm x ys).mem_iff.mp he) with rfl | he
      · have h1 : ¬ _ := fun h => hxy ((Entry.before_iff e y).mpr h)
        have h2 := hseq y (List.mem_cons_self y ys)
        apply (Entry.before_iff y e).mpr
        omega
      · exact hy e he

theorem ProposalQueue.ordered_new : ProposalQueue.new.Ordered := by
  simp [ProposalQueue.Ordered, ProposalQueue.new]

theorem ProposalQueue.ordered_push (q : ProposalQueue) (p : Proposal) (hq : q.Ordered) :
    (q.push p).Ordered := by
  obtain ⟨hpw, hseq⟩ := hq
  refine ⟨ProposalQueue.insertEntry_pairwise _ _ hpw hseq, ?_⟩
  intro e he
  rcases List.mem_cons.mp ((ProposalQueue.insertEntry_perm _ _).mem_iff.mp he) with rfl | he
  · exact Nat.lt_succ_self _
  · exact Nat.lt_succ_of_lt (hseq e he)

theorem ProposalQueue.ordered_pop (q : ProposalQueue) (hq : q.Ordered) : q.pop.Ordered := by
  obtain ⟨hpw, hseq⟩ := hq
  obtain ⟨entries, nextSeq⟩ := q
  cases entries with
  | nil => simp [ProposalQueue.Ordered, ProposalQueue.pop]
  | cons e es =>
    exact ⟨(List.pairwise_cons.mp hpw).2, fun x hx => hseq x (List.mem_cons_of_mem e hx)⟩

theorem Purchase.viewProposals_cases (s : Purchase) (cin : List Int) (r : ViewResult)
    (hr : s.viewProposals cin = some r) :
    r.purchase = s ∨ r.purchase = { s with proposals := s.proposals.pop } := by
  cases hempty : s.proposals.empty with
  | true =>
    rw [Purchase.viewProposals_of_empty s cin hempty] at hr
    left
    simpa using congrArg ViewResult.purchase (Option.some.inj hr).symm
  | false =>
    obtain ⟨t, htop, _, _⟩ := ProposalQueue.top_of_not_empty s.proposals hempty
    cases hread : Purchase.readChoice cin with
    | none => simp [Purchase.viewProposals, hempty, htop, hread] at hr
    | some x =>
      obtain ⟨c, rest, prompts⟩ := x
      rw [Purchase.viewProposals_of_choice s t cin rest c prompts hempty htop hread] at hr
      have := congrArg ViewResult.purchase (Option.some.inj hr).symm
      by_cases h2 : c = 2
      · right
        simpa [h2] using this
      · left
        simpa [h2] using this

theorem Purchase.ordered_call (s s' : Purchase) (c : Call) (hs : s.proposals.Ordered)
    (hc : s.call c = some s') : s'.proposals.Ordered := by
  cases c with
  | addProposal p =>
    simp only [Purchase.call, Option.some.injEq] at hc
    subst hc
    exact ProposalQueue.ordered_push _ _ hs
  | viewProposals cin =>
    simp only [Purchase.call, Option.map_eq_some'] at hc
    obtain ⟨r, hr, rfl⟩ := hc
    rcases Purchase.viewProposals_cases s cin r hr with h | h
    · rw [h]
      exact hs
    · rw [h]
      exact ProposalQueue.ordered_pop _ hs

theorem Purchase.ordered_calls (cs : List Call) (s s' : Purchase) (hs : s.proposals.Ordered)
    (hc : s.calls cs = some s') : s'.proposals.Ordered := by
  induction cs generalizing s with
  | nil =>
    simp only [Purchase.calls, Option.some.injEq] at hc
    subst hc
    exact hs
  | cons c cs ih =>
    unfold Purchase.calls at hc
    cases hcall : s.call c with
    | none => simp [hcall] at hc
    | some s1 =>
      simp only [hcall] at hc
      exact ih s1 (Purchase.ordered_call s s1 c hs hcall) hc

theorem Purchase.viewProposalsTimes_of_empty (n : Nat) (s : Purchase) (cin : List Int)
    (hempty : s.proposals.empty = true) :
    Purchase.viewProposalsTimes n s cin = some (s, cin) := by
  induction n with
  | zero => rfl
  | succ n ih =>
    simp [Purchase.viewProposalsTimes, Purchase.viewProposals_of_empty s cin hempty, ih]

theorem Purchase.viewProposals_back (s : Purchase) (t : Proposal) (rest : List Int)
    (hne : s.proposals.empty = false) (htop : s.proposals.top = some t) :
    s.viewProposals (3 :: rest) =
      some { purchase := s, cin := rest, cout := Purchase.menu t ++ [Purchase.promptLine],
             transaction := none } := by
  have hread := readChoice_skips_rejected [] 3 rest (by simp) (by simp) (by decide) (by decide)
  simpa using Purchase.viewProposals_of_choice s t (3 :: rest) rest 3 _ hne htop hread

theorem Purchase.viewProposalsTimes_back (n : Nat) (s : Purchase) (rest : List Int)
    (hne : s.proposals.empty = false) :
    Purchase.viewProposalsTimes n s (List.replicate n 3 ++ rest) = some (s, rest) := by
  obtain ⟨t, htop, _, _⟩ := ProposalQueue.top_of_not_empty s.proposals hne
  induction n with
  | zero => rfl
  | succ n ih =>
    simp [Purchase.viewProposalsTimes, List.replicate_succ,
      Purchase.viewProposals_back s t _ hne htop, ih]

/-! ## The claims -/

/-- Claim C1, evaluated on the code: with the pending bids B:120, C:120, A:80 and the input
1 (Accept), `viewProposals` returns with the object unchanged. The best bid,
B:120, is still pending and the size is still 3. -/
theorem accept_leaves_best_pending :
    (samplePurchase.viewProposals [1]).map ViewResult.purchase = some samplePurchase ∧
      samplePurchase.proposals.top = some bidB ∧
      samplePurchase.proposals.toList = [bidB, bidC, bidA] ∧
      samplePurchase.proposals.size = 3 := by
  decide

/-- Claim C2, evaluated on the code: with the pending bids B:120, C:120, A:80 and the input
1 (Accept), `viewProposals` hands no transaction back. -/
theorem accept_returns_no_transaction :
    (samplePurchase.viewProposals [1]).map ViewResult.transaction = some none := by
  decide

/-- Claim C3: on a non-empty pending collection, `viewProposals` with the choice 2 (Refuse),
after any number of rejected inputs that fit an `int`, returns; the new collection is the old one
with its top popped, its size is the old size minus one, the old pending
proposals are the top followed by the new ones, the advertisement is untouched
and no transaction is produced. -/
theorem refuse_removes_best (s : Purchase) (junk rest : List Int)
    (hne : s.proposals.empty = false)
    (hint : ∀ x ∈ junk, Purchase.intMin ≤ x ∧ x ≤ Purchase.intMax)
    (hjunk : ∀ x ∈ junk, x < 0 ∨ 3 < x) :
    ∃ t r, s.proposals.top = some t ∧
      s.viewProposals (junk ++ 2 :: rest) = some r ∧
      r.purchase.proposals = s.proposals.pop ∧
      r.purchase.proposals.size = s.proposals.size - 1 ∧
      r.purchase.proposals.size + 1 = s.proposals.size ∧
      s.proposals.toList = t :: r.purchase.proposals.toList ∧
      r.purchase.ad = s.ad ∧
      r.cin = rest ∧
      r.transaction = none := by
  obtain ⟨t, htop, hlist, hsize⟩ := ProposalQueue.top_of_not_empty s.proposals hne
  have hread := readChoice_skips_rejected junk 2 rest hint hjunk (by decide) (by decide)
  refine ⟨t, _, htop, Purchase.viewProposals_of_choice s t _ rest 2 _ hne htop hread, ?_⟩
  simp [hlist, hsize]

/-- Witness of claim C3: the sample purchase (B:120, C:120, A:80) with the inputs 7, -1, 2, 5. -/
theorem refuse_removes_best_witness :
    ∃ t r, samplePurchase.proposals.top = some t ∧
      samplePurchase.viewProposals ([7, -1] ++ 2 :: [5]) = some r ∧
      r.purchase.proposals = samplePurchase.proposals.pop ∧
      r.purchase.proposals.size = samplePurchase.proposals.size - 1 ∧
      r.purchase.proposals.size + 1 = samplePurchase.proposals.size ∧
      samplePurchase.proposals.toList = t :: r.purchase.proposals.toList ∧
      r.purchase.ad = samplePurchase.ad ∧
      r.cin = [5] ∧
      r.transaction = none :=
  refuse_removes_best samplePurchase [7, -1] [5] (by decide) (by decide) (by decide)

/-- Claim C4: for every state and every n, n successive `viewProposals` calls that each
read the input 3 (Back) return and leave the object, and so the pending
collection and its order, as it was; a single Back returns with the object
unchanged and no transaction. -/
theorem back_changes_nothing (s : Purchase) (n : Nat) (rest : List Int) :
    (∃ cin, Purchase.viewProposalsTimes n s (List.replicate n 3 ++ rest) = some (s, cin)) ∧
      (s.proposals.empty = false →
        Purchase.viewProposalsTimes n s (List.replicate n 3 ++ rest) = some (s, rest)) ∧
      ∃ r, s.viewProposals (3 :: rest) = some r ∧ r.purchase = s ∧ r.transaction = none := by
  cases hempty : s.proposals.empty with
  | true =>
    exact ⟨⟨_, Purchase.viewProposalsTimes_of_empty n s _ hempty⟩, by simp,
      _, Purchase.viewProposals_of_empty s _ hempty, rfl, rfl⟩
  | false =>
    obtain ⟨t, htop, _, _⟩ := ProposalQueue.top_of_not_empty s.proposals hempty
    exact ⟨⟨_, Purchase.viewProposalsTimes_back n s rest hempty⟩,
      fun _ => Purchase.viewProposalsTimes_back n s rest hempty,
      _, Purchase.viewProposals_back s t rest hempty htop, rfl, rfl⟩

/-- Claim C5, evaluated on the code: with pending bids and the inputs 0, 2, the input loop
ends at the 0 after a single prompt; the 2 is left unread and the call returns
with the object unchanged. -/
theorem zero_ends_the_input_loop :
    Purchase.readChoice [0, 2] = some (0, [2], [Purchase.promptLine]) ∧
      samplePurchase.viewProposals [0, 2] =
        some { purchase := samplePurchase, cin := [2],
               cout := Purchase.menu bidB ++ [Purchase.promptLine], transaction := none } := by
  decide

/-- Claim C6: after every sequence of `addProposal` and `viewProposals` calls on a newly
constructed purchase, the head entry of the collection is the proposal that
`proposals.top()` yields and that `viewProposals` writes in its menu; every
other pending entry has a price no higher, and one of the same price was
inserted later (its sequence number is larger); sequence numbers are handed out
in insertion order, every pending one being below the next one. -/
theorem best_is_earliest_highest (ad : Advertisement) (cs : List Call) (s : Purchase)
    (t : Entry) (es : List Entry)
    (hrun : (Purchase.new ad).calls cs = some s) (hpending : s.proposals.entries = t :: es) :
    s.proposals.top = some t.proposal ∧
      (∀ cin r, s.viewProposals cin = some r →
        ∃ prompts, r.cout = Purchase.menu t.proposal ++ prompts) ∧
      (∀ p ∈ s.proposals.toList, p.price ≤ t.proposal.price) ∧
      (∀ e ∈ es, e.proposal.price = t.proposal.price → t.seq < e.seq) ∧
      (∀ e ∈ s.proposals.entries, e.seq < s.proposals.nextSeq) := by
  have hord : s.proposals.Ordered :=
    Purchase.ordered_calls cs _ s (by exact ProposalQueue.ordered_new) hrun
  obtain ⟨hpw, hseq⟩ := hord
  rw [hpending] at hpw
  obtain ⟨ht, _⟩ := List.pairwise_cons.mp hpw
  have htop : s.proposals.top = some t.proposal := by simp [ProposalQueue.top, hpending]
  have hne : s.proposals.empty = false := by simp [ProposalQueue.empty, hpending]
  refine ⟨htop, ?_, ?_, ?_, hseq⟩
  · intro cin r hr
    cases hread : Purchase.readChoice cin with
    | none => simp [Purchase.viewProposals, hne, htop, hread] at hr
    | some x =>
      obtain ⟨c, rest, prompts⟩ := x
      rw [Purchase.viewProposals_of_choice s t.proposal cin rest c prompts hne htop hread] at hr
      exact ⟨prompts, by simpa using (congrArg ViewResult.cout (Option.some.inj hr)).symm⟩
  · intro p hp
    simp only [ProposalQueue.toList, hpending, List.map_cons, List.mem_cons, List.mem_map] at hp
    rcases hp with rfl | ⟨e, he, rfl⟩
    · exact le_refl _
    · have := (Entry.before_iff t e).mp (ht e he)
      omega
  · intro e he hprice
    have := (Entry.before_iff t e).mp (ht e he)
    omega

/-- Witness of claim C6: A bids 80, B bids 120, the best bid is refused, C bids 120, B bids
120 again. The head entry is C:120, inserted third. -/
theorem best_is_earliest_highest_witness :
    (Purchase.new sampleAd).calls sampleCalls =
        some { ad := sampleAd,
               proposals := { entries := [⟨2, bidC⟩, ⟨3, bidB2⟩, ⟨0, bidA⟩], nextSeq := 4 } } ∧
      ∀ e ∈ [(⟨3, bidB2⟩ : Entry), ⟨0, bidA⟩], e.proposal.price = bidC.price → 2 < e.seq :=
  ⟨by decide,
    (best_is_earliest_highest sampleAd sampleCalls
      { ad := sampleAd,
        proposals := { entries := [⟨2, bidC⟩, ⟨3, bidB2⟩, ⟨0, bidA⟩], nextSeq := 4 } }
      ⟨2, bidC⟩ [⟨3, bidB2⟩, ⟨0, bidA⟩] (by decide) rfl).2.2.2.1⟩

/-- Claim C7: on an empty pending collection `viewProposals` returns at once: it writes that
no proposal was received, reads no input, hands back no transaction and leaves
the object, with its empty collection, as it was. -/
theorem empty_reports_no_proposals (s : Purchase) (cin : List Int)
    (hempty : s.proposals.empty = true) :
    ∃ r, s.viewProposals cin = some r ∧
      r.cout = [Out.str "You have not received any proposals."] ∧
      r.cin = cin ∧
      r.transaction = none ∧
      r.purchase = s ∧
      r.purchase.proposals.empty = true ∧
      r.purchase.proposals.toList = [] := by
  refine ⟨_, Purchase.viewProposals_of_empty s cin hempty, rfl, rfl, rfl, rfl, hempty, ?_⟩
  simpa [ProposalQueue.empty, ProposalQueue.toList] using hempty

/-- Witness of claim C7: a newly constructed purchase with the inputs 1, 2. -/
theorem empty_reports_no_proposals_witness :
    ∃ r, (Purchase.new sampleAd).viewProposals [1, 2] = some r ∧
      r.cout = [Out.str "You have not received any proposals."] ∧
      r.cin = [1, 2] ∧
      r.transaction = none ∧
      r.purchase = Purchase.new sampleAd ∧
      r.purchase.proposals.empty = true ∧
      r.purchase.proposals.toList = [] :=
  empty_reports_no_proposals (Purchase.new sampleAd) [1, 2] (by decide)

/-- Claim C8: `addProposal(p)` suppresses no duplicate: the pending proposals afterwards are
the previous ones and p, as a multiset; the size grows by one, p occurs once
more than before, every other proposal as often as before, and the
advertisement is untouched. -/
theorem addProposal_adds_one (s : Purchase) (p : Proposal) :
    (s.addProposal p).proposals.toList.Perm (p :: s.proposals.toList) ∧
      (s.addProposal p).proposals.size = s.proposals.size + 1 ∧
      (s.addProposal p).proposals.toList.count p = s.proposals.toList.count p + 1 ∧
      (∀ q, q ≠ p →
        (s.addProposal p).proposals.toList.count q = s.proposals.toList.count q) ∧
      (s.addProposal p).ad = s.ad := by
  have hperm : (s.addProposal p).proposals.toList.Perm (p :: s.proposals.toList) := by
    simpa [Purchase.addProposal, ProposalQueue.push, ProposalQueue.toList] using
      (ProposalQueue.insertEntry_perm ⟨s.proposals.nextSeq, p⟩ s.proposals.entries).map
        Entry.proposal
  refine ⟨hperm, ?_, ?_, ?_, rfl⟩
  · simpa [ProposalQueue.size, ProposalQueue.toList] using hperm.length_eq
  · rw [hperm.count_eq, List.count_cons_self]
  · intro q hq
    rw [hperm.count_eq, List.count_cons_of_ne hq]

/-- Claim C9: `getType()` returns the character P for every purchase, whatever its fields
and pending proposals. -/
theorem getType_is_P (s : Purchase) : s.getType = 'P' := by
  rfl

end Marketplace
